import Mathlib

/-!
# Verification of TinyLLaVA's multimodal fusion and checkpoint composition

Shallow embedding of `tinyllava/model/modeling_tinyllava.py`:

* the multimodal sequence-fusion routine
  `TinyLlavaForConditionalGeneration.prepare_inputs_labels_for_multimodal`
  (interleaving image embedding blocks into tokenized text, rebuilding
  labels / attention masks / position ids, padding to a uniform batch
  length), and
* the shard-aware checkpoint loader `from_pretrained` together with the
  per-component loading routines `load_llm`, `load_vision_tower`,
  `load_connector`.

Tensors are modelled as (nested) Lists: a 2-D tensor of token ids is a
`List (List Int)`, a batch of embedding rows is a `List (List E)` for an
abstract embedding-row type `E` (torch row-level operations — `cat` along
dim 0, `split`, `stack` — become list operations).  The language model's
embedding lookup (`get_input_embeddings()`) is an external collaborator
and is passed in as a function `Int → E`; the zero embedding row used for
padding is passed in as `zeroE`.  Device/dtype movements (`.to(...)`,
`.bool()`) are identities in this model.
-/

namespace TinyLlava

/-- Modelled from the spec: the reserved "ignore" label id
(`IGNORE_INDEX` from `tinyllava.utils.constants`, a module not included
under `src/`; the spec only requires it to be a reserved integer label
id meaning "exclude this position from loss computation"). -/
def IGNORE_INDEX : Int := -100

/-- Modelled from the spec: the reserved image-placeholder token id
(`IMAGE_TOKEN_INDEX` from `tinyllava.utils.constants`, a module not
included under `src/`; the spec only requires it to be a reserved
integer token id marking image-insertion points). -/
def IMAGE_TOKEN_INDEX : Int := -200

/-! ## Small tensor-operation helpers -/

/-- Python slice `l[s:e]` for `0 ≤ s` and an `e` clamped to the length
(the only uses below have `0 ≤ s ≤ e`). -/
def pySlice {α : Type} (l : List α) (s e : Int) : List α :=
  (l.drop s.toNat).take (e - s).toNat

/-- `torch.where(x == t)[0].tolist()` specialised to a 1-D integer
tensor: the ascending list of indices holding `t`. -/
def whereEqAux (t : Int) : List Int → Nat → List Nat
  | [], _ => []
  | x :: xs, i => if x == t then i :: whereEqAux t xs (i + 1) else whereEqAux t xs (i + 1)

/-- Indices of occurrences of `t` in `l`, in ascending order. -/
def whereEq (l : List Int) (t : Int) : List Nat := whereEqAux t l 0

/-- The slices of `l` between consecutive members of an index list: for
indices `[a, b, c, ...]` produce `l[a+1:b], l[b+1:c], ...`.  This is the
loop `for i in range(len(image_token_indices) - 1):
  ...append(cur_input_ids[image_token_indices[i]+1:image_token_indices[i+1]])`. -/
def segSlices {α : Type} (l : List α) : List Int → List (List α)
  | a :: b :: rest => pySlice l (a + 1) b :: segSlices l (b :: rest)
  | _ => []

/-- `torch.split(l, sizes, dim=0)` on a row list. -/
def splitBySizes {α : Type} : List Nat → List α → List (List α)
  | [], _ => []
  | n :: ns, l => l.take n :: splitBySizes ns (l.drop n)

/-- Boolean-mask indexing `row[mask]`: keep the entries at positions
where the mask is true. -/
def depadRow {α : Type} (row : List α) (mask : List Bool) : List α :=
  ((row.zip mask).filter (fun p => p.2)).map (fun p => p.1)

/-- The depadding comprehension
`[cur_x[cur_attention_mask] for cur_x, cur_attention_mask in zip(x, attention_mask)]`. -/
def depadBatch {α : Type} (rows : List (List α)) (masks : List (List Bool)) : List (List α) :=
  List.zipWith depadRow rows masks

/-- `torch.arange(0, n)` as a list of `Int` position ids. -/
def intArange (n : Nat) : List Int := (List.range n).map Int.ofNat

/-! ## Per-sample interleaving (lines 262–301 of the source) -/

/-- The loop `for i in range(num_images + 1)` of the sentinel branch,
phrased structurally on the list of (embedding segment, label segment)
pairs: each segment is appended to the output, and after every non-last
segment (i.e. once per sentinel, since there are `num_images + 1`
segments) one image block `image_features[cur_image_idx]` is spliced in
— with all-`IGNORE_INDEX` labels of the block's length — and the shared
image cursor advances by one. -/
def spliceLoop {E : Type} (image_features : List (List E)) :
    List (List E × List Int) → Nat → List E × List Int × Nat
  | [], cur_image_idx => ([], [], cur_image_idx)
  | [(es, ls)], cur_image_idx => (es, ls, cur_image_idx)
  | (es, ls) :: p :: rest, cur_image_idx =>
    let cur_image_features := image_features.getD cur_image_idx []
    let r := spliceLoop image_features (p :: rest) (cur_image_idx + 1)
    (es ++ (cur_image_features ++ r.1),
     ls ++ (List.replicate cur_image_features.length IGNORE_INDEX ++ r.2.1),
     r.2.2)

/-- One iteration of the batch loop (`for batch_idx, cur_input_ids in
enumerate(input_ids)`), acting on a single depadded sample.  Returns the
fused embedding row list, the fused label list, and the updated shared
image cursor `cur_image_idx`.

* With zero sentinel tokens the sample is embedded as-is, concatenated
  with the empty slice `cur_image_features[0:0]`, and the cursor still
  advances by one (the source's round-robin draw that keeps the shared
  flat image-block list aligned across the batch).
* Otherwise the token run is split at the sentinel positions
  (`image_token_indices = [-1] + where(...) + [len]`), the text segments
  are embedded on their concatenation and re-split by the label-segment
  sizes, and one image block per sentinel is spliced in. -/
def fuseSample {E : Type} (embedF : Int → E) (image_features : List (List E))
    (cur_image_idx : Nat) (cur_input_ids : List Int) (cur_labels : List Int) :
    List E × List Int × Nat :=
  let num_images := cur_input_ids.countP (fun t => t == IMAGE_TOKEN_INDEX)
  if num_images == 0 then
    let cur_image_features := image_features.getD cur_image_idx []
    let cur_input_embeds_1 := cur_input_ids.map embedF
    (cur_input_embeds_1 ++ cur_image_features.take 0, cur_labels, cur_image_idx + 1)
  else
    let image_token_indices : List Int :=
      (-1) :: ((whereEq cur_input_ids IMAGE_TOKEN_INDEX).map Int.ofNat)
        ++ [(cur_input_ids.length : Int)]
    let cur_input_ids_noim := segSlices cur_input_ids image_token_indices
    let cur_labels_noim := segSlices cur_labels image_token_indices
    let split_sizes := cur_labels_noim.map List.length
    let cur_input_embeds := (cur_input_ids_noim.flatten).map embedF
    let cur_input_embeds_no_im := splitBySizes split_sizes cur_input_embeds
    spliceLoop image_features (cur_input_embeds_no_im.zip cur_labels_noim) cur_image_idx

/-- The whole batch loop, threading the shared image cursor through the
samples in order.  The input is the list of (depadded token row,
depadded label row) pairs in batch order. -/
def fuseBatch {E : Type} (embedF : Int → E) (image_features : List (List E)) :
    List (List Int × List Int) → Nat → List (List E) × List (List Int) × Nat
  | [], cur_image_idx => ([], [], cur_image_idx)
  | (ids, labs) :: rest, cur_image_idx =>
    let r1 := fuseSample embedF image_features cur_image_idx ids labs
    let r2 := fuseBatch embedF image_features rest r1.2.2
    (r1.1 :: r2.1, r1.2.1 :: r2.2.1, r2.2.2)

/-! ## Truncation and padding (lines 303–339 of the source) -/

/-- `[x[:tokenizer_model_max_length] for x in xs]` guarded by the
optional configured cap. -/
def truncBatch {α : Type} : Option Nat → List (List α) → List (List α)
  | none, xs => xs
  | some n, xs => xs.map (fun x => x.take n)

/-- Tensor slice assignment `row[:vals.length] = vals` (the source
guarantees the assigned span and `vals` have the same length, which in
torch is required for the assignment to succeed). -/
def setSliceRight {α : Type} (row : List α) (vals : List α) : List α :=
  vals ++ row.drop vals.length

/-- Tensor slice assignment `row[-vals.length:] = vals` (used under a
`cur_len > 0` guard in the source). -/
def setSliceLeft {α : Type} (row : List α) (vals : List α) : List α :=
  row.take (row.length - vals.length) ++ vals

/-- One row of the padding loop: given the batch-wide `max_len` and one
fused sample `(cur_new_embed, cur_new_labels)` with
`cur_len = cur_new_embed.length`, produce the padded embedding row, the
padded label row (a `max_len`-long all-`IGNORE_INDEX` row with the
sample assigned into its span), the attention-mask row (all-false with
`True` assigned into the span) and the position-id row (all-zero with
`arange(0, cur_len)` assigned into the span); the span is at the end
for left padding and at the front otherwise. -/
def padRow {E : Type} (side : String) (zeroE : E) (max_len : Nat)
    (cur_new_embed : List E) (cur_new_labels : List Int) :
    List E × List Int × List Bool × List Int :=
  let cur_len := cur_new_embed.length
  if side == "left" then
    (List.replicate (max_len - cur_len) zeroE ++ cur_new_embed,
     if cur_len > 0 then setSliceLeft (List.replicate max_len IGNORE_INDEX) cur_new_labels
       else List.replicate max_len IGNORE_INDEX,
     if cur_len > 0 then setSliceLeft (List.replicate max_len false) (List.replicate cur_len true)
       else List.replicate max_len false,
     if cur_len > 0 then setSliceLeft (List.replicate max_len (0 : Int)) (intArange cur_len)
       else List.replicate max_len (0 : Int))
  else
    (cur_new_embed ++ List.replicate (max_len - cur_len) zeroE,
     if cur_len > 0 then setSliceRight (List.replicate max_len IGNORE_INDEX) cur_new_labels
       else List.replicate max_len IGNORE_INDEX,
     if cur_len > 0 then setSliceRight (List.replicate max_len false) (List.replicate cur_len true)
       else List.replicate max_len false,
     if cur_len > 0 then setSliceRight (List.replicate max_len (0 : Int)) (intArange cur_len)
       else List.replicate max_len (0 : Int))

/-- The padding step (`# Combine them`): `max_len` is the maximum fused
length over the batch, and each sample of the zipped
(`new_input_embeds`, `new_labels`) batch is padded to `max_len` in the
configured direction.  Returns (padded embeddings, padded labels,
attention mask, position ids); the two input lists always have the same
length at the call site (both are built by the same per-sample loop). -/
def padBatch {E : Type} (side : String) (zeroE : E)
    (new_input_embeds : List (List E)) (new_labels : List (List Int)) :
    List (List E) × List (List Int) × List (List Bool) × List (List Int) :=
  let max_len := (new_input_embeds.map List.length).foldl max 0
  let rows := (new_input_embeds.zip new_labels).map (fun p => padRow side zeroE max_len p.1 p.2)
  (rows.map (fun r => r.1), rows.map (fun r => r.2.1),
   rows.map (fun r => r.2.2.1), rows.map (fun r => r.2.2.2))

/-! ## The top-level fusion routine (lines 223–353 of the source) -/

/-- The slice of `TinyLlavaConfig` read by the fusion routine. -/
structure FusionConfig where
  tokenizer_model_max_length : Option Nat
  tokenizer_padding_side : String

/-- The six-slot return value of `prepare_inputs_labels_for_multimodal`,
in source order: `(input_ids, position_ids, attention_mask,
past_key_values, inputs_embeds, labels)`. -/
structure FusionOutput (E PKV : Type) where
  input_ids : Option (List (List Int))
  position_ids : Option (List (List Int))
  attention_mask : Option (List (List Bool))
  past_key_values : PKV
  inputs_embeds : Option (List (List E))
  labels : Option (List (List Int))
  deriving DecidableEq

/-- `prepare_inputs_labels_for_multimodal`.  `hasVisionTower` models
`self.vision_tower is not None`; `encodeImages` models
`self.encode_images` (vision tower + connector, an external
collaborator) producing the flat list of image embedding blocks;
`embedF` models `self.language_model.get_input_embeddings()`.

The source tests its three short-circuit disjuncts
(`vision_tower is None or images is None or input_ids.shape[1] == 1`)
in a single condition; here `images is None` is resolved by the outer
match and the other two by the inner `if` — all three return the inputs
unchanged with the embeddings slot `None`.  `input_ids.shape[1]` is the
common row length of the rectangular id tensor, read off the first row.
The 1-D `position_ids` default of line 250 is constructed but never
observable (the padded position ids of line 316 are built from scratch),
so it is not modelled. -/
def prepare_inputs_labels_for_multimodal {E Img PKV : Type}
    (cfg : FusionConfig) (hasVisionTower : Bool)
    (encodeImages : Img → List (List E)) (embedF : Int → E) (zeroE : E)
    (input_ids : List (List Int)) (position_ids : Option (List (List Int)))
    (attention_mask : Option (List (List Bool))) (past_key_values : PKV)
    (labels : Option (List (List Int))) (images : Option Img) :
    FusionOutput E PKV :=
  match images with
  | none =>
    ⟨some input_ids, position_ids, attention_mask, past_key_values, none, labels⟩
  | some imgs =>
    if !hasVisionTower || (input_ids.headD []).length == 1 then
      ⟨some input_ids, position_ids, attention_mask, past_key_values, none, labels⟩
    else
      let image_features := encodeImages imgs
      -- dummy defaults (lines 242–252); `.bool()` on a present mask is the identity here
      let attn := match attention_mask with
        | none => input_ids.map (fun r => r.map (fun _ => true))
        | some m => m
      let labs := match labels with
        | none => input_ids.map (fun r => r.map (fun _ => IGNORE_INDEX))
        | some ls => ls
      -- remove the padding using attention_mask (lines 255–257)
      let idsDep := depadBatch input_ids attn
      let labsDep := depadBatch labs attn
      let fused := fuseBatch embedF image_features (idsDep.zip labsDep) 0
      -- truncate to the configured max length (lines 303–307)
      let newEmbeds := truncBatch cfg.tokenizer_model_max_length fused.1
      let newLabels := truncBatch cfg.tokenizer_model_max_length fused.2.1
      -- combine them (lines 309–339)
      let padded := padBatch cfg.tokenizer_padding_side zeroE newEmbeds newLabels
      ⟨none,
       match position_ids with | none => none | some _ => some padded.2.2.2,
       match attention_mask with | none => none | some _ => some padded.2.2.1,
       past_key_values,
       some padded.1,
       match labels with | none => none | some _ => some padded.2.1⟩

/-! ## Shard-aware checkpoint composition (lines 440–517 of the source)

Tensor values are an abstract type `V`; a state dict is an association
list `List (String × V)` in insertion order (the Python dicts involved —
`load_file` results, the JSON `weight_map`, and the merged
`full_state_dict` — all have unique keys, so first-match lookup agrees
with dict lookup). -/

/-- First-match association-list lookup (`d[k]` / `k in d`). -/
def lookupT {V : Type} : List (String × V) → String → Option V
  | [], _ => none
  | (k, v) :: rest, tn => if k = tn then some v else lookupT rest tn

/-- One step of building `files_to_load`: append `tn` to the group of
file `fn`, creating the group at the end if absent (Python dict
insertion order). -/
def insertGroup : List (String × List String) → String → String →
    List (String × List String)
  | [], tn, fn => [(fn, [tn])]
  | (f, ts) :: rest, tn, fn =>
    if f = fn then (f, ts ++ [tn]) :: rest else (f, ts) :: insertGroup rest tn fn

/-- `files_to_load`: group the manifest's tensor names by their shard
file name, preserving first-appearance order of the files (lines
478–482 of the source).  The manifest `weight_map` is the list of
`(tensor_name, file_name)` pairs of `index_data['weight_map']`. -/
def filesToLoad (weight_map : List (String × String)) : List (String × List String) :=
  weight_map.foldl (fun acc p => insertGroup acc p.1 p.2) []

/-- Processing of one `files_to_load` item (lines 484–497): if the shard
file is absent on disk (`disk g.1 = none`) a warning is printed and the
whole group is skipped; otherwise the shard is loaded and each tensor
name of the group found in it contributes its entry, a name not found
being reported and skipped. -/
def shardStep {V : Type} (disk : String → Option (List (String × V)))
    (g : String × List String) : List (String × V) :=
  match disk g.1 with
  | none => []
  | some part_state_dict =>
    g.2.filterMap (fun tn => (lookupT part_state_dict tn).map (fun v => (tn, v)))

/-- The merged `full_state_dict` assembled from an index manifest:
group by shard file, then concatenate each group's resolved entries in
loop order.  `disk fn` models `load_file(os.path.join(pretrained_path,
fn))` guarded by `os.path.isfile`, returning `none` when the shard file
does not exist. -/
def mergeShards {V : Type} (weight_map : List (String × String))
    (disk : String → Option (List (String × V))) : List (String × V) :=
  (filesToLoad weight_map).flatMap (shardStep disk)

/-- The filesystem surface touched by `from_pretrained`: existence
tests, `safetensors.torch.load_file` on an existing weight file, and the
parsed `weight_map` field of an index manifest (`none` when the JSON has
no `weight_map` key, in which case the source leaves
`full_state_dict = {}`). -/
structure CkptFS (V : Type) where
  isFile : String → Bool
  isDir : String → Bool
  loadFile : String → List (String × V)
  indexWeightMap : String → Option (List (String × String))

/-- `os.path.join` for the relative names used here. -/
def osPathJoin (a b : String) : String := a ++ "/" ++ b

/-- The checkpoint-resolution phase of `from_pretrained` (lines
451–497), returning the state of the Python local `full_state_dict` at
line 499: `none` when no branch ever assigned it (the variable is
unbound), `some sd` when some branch assigned `sd`.  The inner `Option`
mirrors the `is not None` test of line 499: no branch of the source ever
assigns `None`, so the value is `some (some sd)` whenever it is bound. -/
def from_pretrained_resolve {V : Type} (fs : CkptFS V) (pretrained_path : String) :
    Option (Option (List (String × V))) :=
  if fs.isFile pretrained_path && pretrained_path.endsWith ".safetensors" then
    some (some (fs.loadFile pretrained_path))
  else if fs.isDir pretrained_path then
    let single_file := osPathJoin pretrained_path "model.safetensors"
    let index_file := osPathJoin pretrained_path "model.safetensors.index.json"
    if fs.isFile single_file then
      some (some (fs.loadFile single_file))
    else if fs.isFile index_file then
      match fs.indexWeightMap index_file with
      | some weight_map =>
        some (some (mergeShards weight_map (fun fn =>
          let file_path := osPathJoin pretrained_path fn
          if fs.isFile file_path then some (fs.loadFile file_path) else none)))
      | none => some (some [])
    else none
  else none

/-- Outcome of the dispatch at lines 499–515 of `from_pretrained`. -/
inductive FromPretrainedResult (V : Type) where
  /-- `full_state_dict` was assigned: the three components are loaded
  from the consolidated state dict. -/
  | loadedConsolidated (sd : List (String × V))
  /-- the `else` branch of line 509: per-component standalone loading. -/
  | fallbackPerComponent
  /-- Python raises `UnboundLocalError` at line 499 because
  `full_state_dict` was never assigned on the taken path. -/
  | unboundLocalError
  deriving DecidableEq

/-- The dispatch `if full_state_dict is not None: ... else: ...` (lines
499–515), including the crash when the local was never assigned. -/
def from_pretrained_load {V : Type} (fs : CkptFS V) (pretrained_path : String) :
    FromPretrainedResult V :=
  match from_pretrained_resolve fs pretrained_path with
  | none => .unboundLocalError
  | some none => .fallbackPerComponent
  | some (some sd) => .loadedConsolidated sd

/-! ## Per-component routing and strictness (`load_llm`,
`load_vision_tower`, `load_connector`, lines 356–437)

`apply sub strict` models `component.load_state_dict(sub, strict)`:
`none` is a successful call, `some e` a raised `RuntimeError e`.  Each
loader returns the ordered list of `strict` flags it passed to
`load_state_dict` together with the propagated error, if any. -/

/-- The `language_model.`-range of the merged map with the 15-character
component name stripped (`k[15:]`), in source order. -/
def llmSubState {V : Type} (full_state_dict : List (String × V)) : List (String × V) :=
  full_state_dict.filterMap (fun kv =>
    if "language_model.".isPrefixOf kv.1 then some (kv.1.drop 15, kv.2) else none)

/-- The `vision_tower.`-range of the merged map with the 13-character
component name stripped (`k[13:]`). -/
def visionTowerSubState {V : Type} (full_state_dict : List (String × V)) : List (String × V) :=
  full_state_dict.filterMap (fun kv =>
    if "vision_tower.".isPrefixOf kv.1 then some (kv.1.drop 13, kv.2) else none)

/-- The `connector.`-range of the merged map with the 10-character
component name stripped (`k[10:]`). -/
def connectorSubState {V : Type} (full_state_dict : List (String × V)) : List (String × V) :=
  full_state_dict.filterMap (fun kv =>
    if "connector.".isPrefixOf kv.1 then some (kv.1.drop 10, kv.2) else none)

/-- The `full_state_dict` branch of `load_llm` (lines 358–371): a single
permissive (`strict=False`) application whose `RuntimeError`, if any, is
caught, logged and re-raised. -/
def load_llm_fsd {V Err : Type} (full_state_dict : List (String × V))
    (apply : List (String × V) → Bool → Option Err) : List Bool × Option Err :=
  let llm_state_dict := llmSubState full_state_dict
  match apply llm_state_dict false with
  | none => ([false], none)
  | some e => ([false], some e)

/-- The `full_state_dict` branch of `load_vision_tower` (lines 397–409):
a single strict (`strict=True`) application; a `RuntimeError` is caught,
logged, and re-raised — there is no permissive retry. -/
def load_vision_tower_fsd {V Err : Type} (full_state_dict : List (String × V))
    (apply : List (String × V) → Bool → Option Err) : List Bool × Option Err :=
  let vision_tower_state_dict := visionTowerSubState full_state_dict
  match apply vision_tower_state_dict true with
  | none => ([true], none)
  | some e => ([true], some e)

/-- The `full_state_dict` branch of `load_connector` (lines 419–433): a
strict application first; on `RuntimeError` the failure is logged and
the load is retried once with `strict=False`, whose error (if any)
propagates. -/
def load_connector_fsd {V Err : Type} (full_state_dict : List (String × V))
    (apply : List (String × V) → Bool → Option Err) : List Bool × Option Err :=
  let connector_state_dict := connectorSubState full_state_dict
  match apply connector_state_dict true with
  | none => ([true], none)
  | some _ =>
    match apply connector_state_dict false with
    | none => ([true, false], none)
    | some e2 => ([true, false], some e2)

/-! ## Helper lemmas -/

theorem whereEqAux_length (t : Int) :
    ∀ (l : List Int) (i : Nat),
      (whereEqAux t l i).length = l.countP (fun x => x == t)
  | [], _ => rfl
  | x :: xs, i => by
    by_cases h : x == t <;>
      simp [whereEqAux, h, List.countP_cons, whereEqAux_length t xs (i + 1)]

theorem whereEq_length (l : List Int) (t : Int) :
    (whereEq l t).length = l.countP (fun x => x == t) :=
  whereEqAux_length t l 0

theorem splitBySizes_length {α : Type} :
    ∀ (ns : List Nat) (l : List α), (splitBySizes ns l).length = ns.length
  | [], _ => rfl
  | n :: ns, l => by simp [splitBySizes, splitBySizes_length ns (l.drop n)]

theorem segSlices_length {α : Type} (l : List α) :
    ∀ (idxs : List Int), (segSlices l idxs).length = idxs.length - 1
  | [] => rfl
  | [_] => rfl
  | _ :: b :: rest => by
    simp [segSlices, segSlices_length l (b :: rest)]

theorem spliceLoop_cursor {E : Type} (feats : List (List E)) :
    ∀ (ps : List (List E × List Int)) (c : Nat),
      (spliceLoop feats ps c).2.2 = c + (ps.length - 1)
  | [], c => by simp [spliceLoop]
  | [(es, ls)], c => by simp [spliceLoop]
  | (es, ls) :: p :: rest, c => by
    have ih := spliceLoop_cursor feats (p :: rest) (c + 1)
    simp only [spliceLoop, ih]
    simp
    omega

theorem pySlice_length_cong {α β : Type} (l1 : List α) (l2 : List β)
    (h : l1.length = l2.length) (s e : Int) :
    (pySlice l1 s e).length = (pySlice l2 s e).length := by
  simp [pySlice, h]

theorem segSlices_map_length_cong {α β : Type} (l1 : List α) (l2 : List β)
    (h : l1.length = l2.length) :
    ∀ (idxs : List Int),
      (segSlices l1 idxs).map List.length = (segSlices l2 idxs).map List.length
  | [] => rfl
  | [_] => rfl
  | a :: b :: rest => by
    simp only [segSlices, List.map_cons, pySlice_length_cong l1 l2 h (a + 1) b,
      segSlices_map_length_cong l1 l2 h (b :: rest)]

theorem splitBySizes_map_flatten {α β : Type} (f : α → β) :
    ∀ (xss : List (List α)),
      splitBySizes (xss.map List.length) ((xss.flatten).map f) = xss.map (List.map f)
  | [] => rfl
  | xs :: xss => by
    have h1 : (xs.map f).length = xs.length := by simp
    simp only [splitBySizes, List.map_cons, List.flatten_cons, List.map_append,
      List.take_left' h1, List.drop_left' h1, splitBySizes_map_flatten f xss]

theorem spliceLoop_length_eq {E : Type} (feats : List (List E)) :
    ∀ (ps : List (List E × List Int)) (c : Nat),
      (∀ p ∈ ps, (p.1 : List E).length = p.2.length) →
      (spliceLoop feats ps c).1.length = (spliceLoop feats ps c).2.1.length
  | [], _, _ => rfl
  | [(es, ls)], _, h => by simpa using h (es, ls) (by simp)
  | (es, ls) :: p :: rest, c, h => by
    have ih := spliceLoop_length_eq feats (p :: rest) (c + 1)
      (fun q hq => h q (List.mem_cons_of_mem _ hq))
    have h1 := h (es, ls) (List.mem_cons_self _ _)
    simp only [spliceLoop]
    simp only [List.length_append, List.length_replicate]
    simp at h1
    omega

theorem zip_length_eq_of_map_length {α β : Type} :
    ∀ (xs : List (List α)) (ys : List (List β)),
      xs.map List.length = ys.map List.length →
      ∀ p ∈ xs.zip ys, (p.1 : List α).length = p.2.length
  | [], _, _, p, hp => by simp at hp
  | _ :: _, [], _, p, hp => by simp at hp
  | x :: xs, y :: ys, h, p, hp => by
    simp only [List.map_cons, List.cons.injEq] at h
    simp only [List.zip_cons_cons, List.mem_cons] at hp
    rcases hp with rfl | hp
    · exact h.1
    · exact zip_length_eq_of_map_length xs ys h.2 p hp

theorem fuseSample_length_eq {E : Type} (embedF : Int → E) (feats : List (List E))
    (c : Nat) (ids labs : List Int) (h : labs.length = ids.length) :
    (fuseSample embedF feats c ids labs).1.length =
      (fuseSample embedF feats c ids labs).2.1.length := by
  unfold fuseSample
  by_cases h0 : ids.countP (fun t => t == IMAGE_TOKEN_INDEX) = 0
  · simp [h0, h]
  · simp only [Nat.beq_eq_true_eq, if_neg h0]
    have hsz : (segSlices labs
        ((-1) :: ((whereEq ids IMAGE_TOKEN_INDEX).map Int.ofNat)
          ++ [(ids.length : Int)])).map List.length =
        (segSlices ids
        ((-1) :: ((whereEq ids IMAGE_TOKEN_INDEX).map Int.ofNat)
          ++ [(ids.length : Int)])).map List.length :=
      segSlices_map_length_cong labs ids h _
    rw [hsz, splitBySizes_map_flatten]
    refine spliceLoop_length_eq feats _ c (zip_length_eq_of_map_length _ _ ?_)
    rw [List.map_map]
    have : (List.length ∘ List.map embedF) = ((List.length : List Int → Nat)) := by
      funext xs; simp
    rw [this, ← hsz]

theorem fuseBatch_length_eq {E : Type} (embedF : Int → E) (feats : List (List E)) :
    ∀ (ps : List (List Int × List Int)) (c : Nat),
      (∀ p ∈ ps, (p.2 : List Int).length = p.1.length) →
      ∀ i, ((fuseBatch embedF feats ps c).1.getD i []).length =
        ((fuseBatch embedF feats ps c).2.1.getD i []).length
  | [], _, _, i => by simp [fuseBatch]
  | (ids, labs) :: rest, c, h, 0 => by
    simp only [fuseBatch, List.getD_cons_zero]
    exact fuseSample_length_eq embedF feats c ids labs (h (ids, labs) (List.mem_cons_self _ _))
  | (ids, labs) :: rest, c, h, (i + 1) => by
    simp only [fuseBatch, List.getD_cons_succ]
    exact fuseBatch_length_eq embedF feats rest _
      (fun q hq => h q (List.mem_cons_of_mem _ hq)) i

theorem fuseBatch_lengths {E : Type} (embedF : Int → E) (feats : List (List E)) :
    ∀ (ps : List (List Int × List Int)) (c : Nat),
      (fuseBatch embedF feats ps c).1.length = ps.length ∧
      (fuseBatch embedF feats ps c).2.1.length = ps.length
  | [], _ => by simp [fuseBatch]
  | (ids, labs) :: rest, c => by
    have ih := fuseBatch_lengths embedF feats rest
      (fuseSample embedF feats c ids labs).2.2
    simp [fuseBatch, ih.1, ih.2]

theorem depadRow_length_cong {α β : Type} :
    ∀ (r1 : List α) (r2 : List β) (m : List Bool), r1.length = r2.length →
      (depadRow r1 m).length = (depadRow r2 m).length
  | [], [], _, _ => rfl
  | [], _ :: _, _, h => by simp at h
  | _ :: _, [], _, h => by simp at h
  | _ :: _, _ :: _, [], _ => rfl
  | a :: r1, b :: r2, mb :: m, h => by
    have ih := depadRow_length_cong r1 r2 m (by simpa using h)
    by_cases hm : mb <;> simp [depadRow, List.filter_cons, hm] <;>
      simpa [depadRow] using ih

theorem depad_zip_length :
    ∀ (ids labs : List (List Int)) (attn : List (List Bool)),
      labs.length = ids.length →
      (∀ j, j < ids.length → ((labs.getD j []).length = (ids.getD j []).length)) →
      ∀ p ∈ (depadBatch ids attn).zip (depadBatch labs attn),
        (p.2 : List Int).length = p.1.length
  | [], _, _, _, _, p, hp => by simp [depadBatch] at hp
  | _ :: _, [], _, h1, _, p, hp => by simp at h1
  | _ :: _, _ :: _, [], _, _, p, hp => by simp [depadBatch] at hp
  | i0 :: ids, l0 :: labs, a0 :: attn, h1, h2, p, hp => by
    simp only [depadBatch, List.zipWith_cons_cons, List.zip_cons_cons,
      List.mem_cons] at hp
    rcases hp with rfl | hp
    · exact depadRow_length_cong l0 i0 a0 (by simpa using h2 0 (by simp))
    · exact depad_zip_length ids labs attn (by simpa using h1)
        (fun j hj => by simpa using h2 (j + 1) (by simpa using hj)) p hp

theorem truncBatch_getD {α : Type} (cap : Option Nat) (l : List (List α)) (i : Nat) :
    (truncBatch cap l).getD i [] =
      (match cap with | none => l.getD i [] | some n => (l.getD i []).take n) := by
  cases cap with
  | none => rfl
  | some n =>
    simp only [truncBatch]
    by_cases hi : i < l.length
    · rw [List.getD_eq_getElem _ _ (by simpa using hi), List.getD_eq_getElem _ _ hi]
      simp
    · rw [List.getD_eq_default _ _ (by simpa using Nat.le_of_not_lt hi),
        List.getD_eq_default _ _ (by simpa using Nat.le_of_not_lt hi)]
      simp

theorem truncBatch_length {α : Type} (cap : Option Nat) (l : List (List α)) :
    (truncBatch cap l).length = l.length := by
  cases cap <;> simp [truncBatch]

theorem foldl_max_le_init : ∀ (l : List Nat) (a : Nat), a ≤ l.foldl max a
  | [], _ => le_refl _
  | x :: l, a => le_trans (le_max_left a x) (foldl_max_le_init l (max a x))

theorem mem_le_foldl_max : ∀ (l : List Nat) (a : Nat), ∀ x ∈ l, x ≤ l.foldl max a
  | x0 :: l, a, x, hx => by
    rcases List.mem_cons.mp hx with rfl | hx'
    · exact le_trans (le_max_right a x) (foldl_max_le_init l (max a x))
    · exact mem_le_foldl_max l (max a x0) x hx'

theorem zip_getD {α β : Type} :
    ∀ (xs : List α) (ys : List β) (i : Nat) (d1 : α) (d2 : β),
      i < xs.length → i < ys.length →
      (xs.zip ys).getD i (d1, d2) = (xs.getD i d1, ys.getD i d2)
  | [], _, i, _, _, h1, _ => absurd h1 (by simp)
  | _ :: _, [], i, _, _, _, h2 => absurd h2 (by simp)
  | x :: xs, y :: ys, 0, _, _, _, _ => rfl
  | x :: xs, y :: ys, i + 1, d1, d2, h1, h2 => by
    simpa using zip_getD xs ys i d1 d2 (by simpa using h1) (by simpa using h2)

theorem map_getD {α β : Type} (f : α → β) :
    ∀ (l : List α) (i : Nat) (d' : α) (d : β), i < l.length →
      (l.map f).getD i d = f (l.getD i d')
  | [], i, _, _, h => absurd h (by simp)
  | x :: l, 0, _, _, _ => rfl
  | x :: l, i + 1, d', d, h => by
    have h' : i < l.length := by simp at h; omega
    exact map_getD f l i d' d h'

theorem getD_map_zip {α β γ : Type} (g : α × β → γ) :
    ∀ (xs : List α) (ys : List β) (i : Nat) (da : α) (db : β) (d : γ),
      i < xs.length → i < ys.length →
      ((xs.zip ys).map g).getD i d = g (xs.getD i da, ys.getD i db)
  | [], _, i, _, _, _, h1, _ => absurd h1 (by simp)
  | _ :: _, [], i, _, _, _, _, h2 => absurd h2 (by simp)
  | x :: xs, y :: ys, 0, _, _, _, _, _ => rfl
  | x :: xs, y :: ys, i + 1, da, db, d, h1, h2 => by
    have h1' : i < xs.length := by simp at h1; omega
    have h2' : i < ys.length := by simp at h2; omega
    simpa using getD_map_zip g xs ys i da db d h1' h2'

theorem padBatch_getD {E : Type} (side : String) (zeroE : E)
    (embeds : List (List E)) (labels : List (List Int)) (i : Nat)
    (h1 : i < embeds.length) (h2 : i < labels.length) :
    (padBatch side zeroE embeds labels).1.getD i [] =
      (padRow side zeroE ((embeds.map List.length).foldl max 0)
        (embeds.getD i []) (labels.getD i [])).1 ∧
    (padBatch side zeroE embeds labels).2.1.getD i [] =
      (padRow side zeroE ((embeds.map List.length).foldl max 0)
        (embeds.getD i []) (labels.getD i [])).2.1 ∧
    (padBatch side zeroE embeds labels).2.2.1.getD i [] =
      (padRow side zeroE ((embeds.map List.length).foldl max 0)
        (embeds.getD i []) (labels.getD i [])).2.2.1 ∧
    (padBatch side zeroE embeds labels).2.2.2.getD i [] =
      (padRow side zeroE ((embeds.map List.length).foldl max 0)
        (embeds.getD i []) (labels.getD i [])).2.2.2 := by
  refine ⟨?_, ?_, ?_, ?_⟩ <;>
  · simp only [padBatch, List.map_map]
    rw [getD_map_zip _ embeds labels i [] [] _ h1 h2]
    rfl

theorem padRow_right_fields {E : Type} (side : String) (hs : (side == "left") = false)
    (zeroE : E) (max_len : Nat) (e : List E) (l : List Int) (h3 : l.length = e.length) :
    padRow side zeroE max_len e l =
      (e ++ List.replicate (max_len - e.length) zeroE,
       l ++ List.replicate (max_len - l.length) IGNORE_INDEX,
       List.replicate e.length true ++ List.replicate (max_len - e.length) false,
       intArange e.length ++ List.replicate (max_len - e.length) (0 : Int)) := by
  by_cases h0 : e.length > 0
  · simp [padRow, hs, h0, setSliceRight, intArange]
  · have he : e = [] := by rw [← List.length_eq_zero]; omega
    have hl : l = [] := by rw [← List.length_eq_zero]; omega
    subst he; subst hl
    simp [padRow, hs, intArange]

theorem padRow_left_fields {E : Type} (side : String) (hs : (side == "left") = true)
    (zeroE : E) (max_len : Nat) (e : List E) (l : List Int) (h3 : l.length = e.length) :
    padRow side zeroE max_len e l =
      (List.replicate (max_len - e.length) zeroE ++ e,
       List.replicate (max_len - l.length) IGNORE_INDEX ++ l,
       List.replicate (max_len - e.length) false ++ List.replicate e.length true,
       List.replicate (max_len - e.length) (0 : Int) ++ intArange e.length) := by
  by_cases h0 : e.length > 0
  · simp [padRow, hs, h0, setSliceLeft, intArange, Nat.sub_le, Nat.min_eq_left]
  · have he : e = [] := by rw [← List.length_eq_zero]; omega
    have hl : l = [] := by rw [← List.length_eq_zero]; omega
    subst he; subst hl
    simp [padRow, hs, intArange]

theorem insertGroup_mem_cases :
    ∀ (acc : List (String × List String)) (tn fn gf : String) (gts : List String),
      (gf, gts) ∈ insertGroup acc tn fn →
      ∀ t ∈ gts, (∃ ts, (gf, ts) ∈ acc ∧ t ∈ ts) ∨ (t = tn ∧ gf = fn)
  | [], tn, fn, gf, gts, hg, t, ht => by
    simp only [insertGroup, List.mem_singleton, Prod.mk.injEq] at hg
    obtain ⟨rfl, rfl⟩ := hg
    simp only [List.mem_singleton] at ht
    exact Or.inr ⟨ht, rfl⟩
  | (f, ts0) :: acc, tn, fn, gf, gts, hg, t, ht => by
    by_cases hf : f = fn
    · simp only [insertGroup] at hg
      rw [if_pos hf] at hg
      rcases List.mem_cons.mp hg with heq | hg2
      · have e1 : gf = f := congrArg Prod.fst heq
        have e2 : gts = ts0 ++ [tn] := congrArg Prod.snd heq
        rcases List.mem_append.mp (e2 ▸ ht) with h | h
        · exact Or.inl ⟨ts0, by rw [e1]; exact List.mem_cons_self _ _, h⟩
        · simp only [List.mem_singleton] at h
          exact Or.inr ⟨h, by rw [e1, hf]⟩
      · exact Or.inl ⟨gts, List.mem_cons_of_mem _ hg2, ht⟩
    · simp only [insertGroup] at hg
      rw [if_neg hf] at hg
      rcases List.mem_cons.mp hg with heq | hg2
      · have e1 : gf = f := congrArg Prod.fst heq
        have e2 : gts = ts0 := congrArg Prod.snd heq
        exact Or.inl ⟨ts0, by rw [e1]; exact List.mem_cons_self _ _, e2 ▸ ht⟩
      · rcases insertGroup_mem_cases acc tn fn gf gts hg2 t ht with ⟨ts, h1, h2⟩ | h
        · exact Or.inl ⟨ts, List.mem_cons_of_mem _ h1, h2⟩
        · exact Or.inr h

theorem filesToLoad_foldl_sound :
    ∀ (wm : List (String × String)) (acc : List (String × List String))
      (gf : String) (gts : List String),
      (gf, gts) ∈ wm.foldl (fun a p => insertGroup a p.1 p.2) acc →
      ∀ t ∈ gts, (∃ ts, (gf, ts) ∈ acc ∧ t ∈ ts) ∨ (t, gf) ∈ wm
  | [], _, _, gts, hg, t, ht => Or.inl ⟨gts, hg, ht⟩
  | (tn0, fn0) :: wm, acc, gf, gts, hg, t, ht => by
    rcases filesToLoad_foldl_sound wm (insertGroup acc tn0 fn0) gf gts hg t ht with
      ⟨ts, hts, htts⟩ | hmem
    · rcases insertGroup_mem_cases acc tn0 fn0 gf ts hts t htts with ⟨ts', h1, h2⟩ | ⟨he1, he2⟩
      · exact Or.inl ⟨ts', h1, h2⟩
      · rw [he1, he2]
        exact Or.inr (List.mem_cons_self _ _)
    · exact Or.inr (List.mem_cons_of_mem _ hmem)

theorem filesToLoad_sound (wm : List (String × String)) (gf : String)
    (gts : List String) (hg : (gf, gts) ∈ filesToLoad wm) :
    ∀ t ∈ gts, (t, gf) ∈ wm := by
  intro t ht
  rcases filesToLoad_foldl_sound wm [] gf gts hg t ht with ⟨ts, hts, _⟩ | h
  · simp at hts
  · exact h

theorem insertGroup_self :
    ∀ (acc : List (String × List String)) (tn fn : String),
      ∃ ts, (fn, ts) ∈ insertGroup acc tn fn ∧ tn ∈ ts
  | [], tn, fn => ⟨[tn], by simp [insertGroup], by simp⟩
  | (f, ts0) :: acc, tn, fn => by
    by_cases hf : f = fn
    · subst hf
      exact ⟨ts0 ++ [tn], by simp [insertGroup], by simp⟩
    · obtain ⟨ts, h1, h2⟩ := insertGroup_self acc tn fn
      refine ⟨ts, ?_, h2⟩
      simp only [insertGroup]
      rw [if_neg hf]
      exact List.mem_cons_of_mem _ h1

theorem insertGroup_preserve :
    ∀ (acc : List (String × List String)) (tn fn gf : String) (gts : List String),
      (gf, gts) ∈ acc → ∀ t ∈ gts, ∃ ts, (gf, ts) ∈ insertGroup acc tn fn ∧ t ∈ ts
  | [], _, _, _, _, h, _, _ => absurd h (by simp)
  | (f, ts0) :: acc, tn, fn, gf, gts, hmem, t, ht => by
    by_cases hf : f = fn
    · rcases List.mem_cons.mp hmem with heq | hmem'
      · have e1 : gf = f := congrArg Prod.fst heq
        have e2 : gts = ts0 := congrArg Prod.snd heq
        refine ⟨ts0 ++ [tn], ?_, List.mem_append_left _ (e2 ▸ ht)⟩
        rw [e1]
        simp only [insertGroup]
        rw [if_pos hf]
        exact List.mem_cons_self _ _
      · refine ⟨gts, ?_, ht⟩
        simp only [insertGroup]
        rw [if_pos hf]
        exact List.mem_cons_of_mem _ hmem'
    · rcases List.mem_cons.mp hmem with heq | hmem'
      · have e1 : gf = f := congrArg Prod.fst heq
        have e2 : gts = ts0 := congrArg Prod.snd heq
        refine ⟨gts, ?_, ht⟩
        simp only [insertGroup]
        rw [if_neg hf, e1, e2]
        exact List.mem_cons_self _ _
      · obtain ⟨ts, h1, h2⟩ := insertGroup_preserve acc tn fn gf gts hmem' t ht
        refine ⟨ts, ?_, h2⟩
        simp only [insertGroup]
        rw [if_neg hf]
        exact List.mem_cons_of_mem _ h1

theorem filesToLoad_foldl_complete :
    ∀ (wm : List (String × String)) (acc : List (String × List String)) (t gf : String),
      ((t, gf) ∈ wm ∨ ∃ ts, (gf, ts) ∈ acc ∧ t ∈ ts) →
      ∃ ts, (gf, ts) ∈ wm.foldl (fun a p => insertGroup a p.1 p.2) acc ∧ t ∈ ts
  | [], _, t, gf, h => by
    rcases h with h | h
    · simp at h
    · exact h
  | (tn0, fn0) :: wm, acc, t, gf, h => by
    apply filesToLoad_foldl_complete wm (insertGroup acc tn0 fn0) t gf
    rcases h with h | ⟨ts, h1, h2⟩
    · rcases List.mem_cons.mp h with heq | h'
      · have e1 : t = tn0 := congrArg Prod.fst heq
        have e2 : gf = fn0 := congrArg Prod.snd heq
        rw [e1, e2]
        exact Or.inr (insertGroup_self acc tn0 fn0)
      · exact Or.inl h'
    · exact Or.inr (insertGroup_preserve acc tn0 fn0 gf ts h1 t h2)

theorem filesToLoad_complete (wm : List (String × String)) (t gf : String)
    (h : (t, gf) ∈ wm) : ∃ ts, (gf, ts) ∈ filesToLoad wm ∧ t ∈ ts :=
  filesToLoad_foldl_complete wm [] t gf (Or.inl h)

theorem shardStep_mem {V : Type} (disk : String → Option (List (String × V)))
    (g : String × List String) (tn : String) (v : V) :
    (tn, v) ∈ shardStep disk g ↔
      ∃ part, disk g.1 = some part ∧ tn ∈ g.2 ∧ lookupT part tn = some v := by
  unfold shardStep
  cases hd : disk g.1 with
  | none => simp
  | some part =>
    simp only [List.mem_filterMap, Option.map_eq_some', Option.some.injEq]
    constructor
    · rintro ⟨a, ha, w, hw, heq⟩
      have e1 : a = tn := congrArg Prod.fst heq
      have e2 : w = v := congrArg Prod.snd heq
      exact ⟨part, rfl, e1 ▸ ha, by rw [← e1, ← e2]; exact hw⟩
    · rintro ⟨part', rfl, ha, hw⟩
      exact ⟨tn, ha, v, hw, rfl⟩

/-! ## Claim theorems -/

/-- C1: for every sample on the fusion path, the fused embedding row
list and the fused label list have the same length, both before padding
(also after the optional truncation) and after padding, where both
padded rows have length `max_len`.  The inputs are related to the
pipeline stages by the equation hypotheses; `h1`/`h2` say the label
tensor has the same shape as the id tensor (guaranteed by the
`full_like` default or the transformer calling contract). -/
theorem C1_length_invariant {E : Type} (embedF : Int → E) (zeroE : E)
    (image_features : List (List E)) (side : String) (cap : Option Nat)
    (input_ids labels0 : List (List Int)) (attn : List (List Bool)) (i : Nat)
    (fused : List (List E) × List (List Int) × Nat)
    (newEmbeds : List (List E)) (newLabels : List (List Int))
    (padded : List (List E) × List (List Int) × List (List Bool) × List (List Int))
    (max_len : Nat)
    (hfused : fused = fuseBatch embedF image_features
      ((depadBatch input_ids attn).zip (depadBatch labels0 attn)) 0)
    (hne : newEmbeds = truncBatch cap fused.1)
    (hnl : newLabels = truncBatch cap fused.2.1)
    (hpad : padded = padBatch side zeroE newEmbeds newLabels)
    (hml : max_len = (newEmbeds.map List.length).foldl max 0)
    (h1 : labels0.length = input_ids.length)
    (h2 : ∀ j, j < input_ids.length →
      (labels0.getD j []).length = (input_ids.getD j []).length) :
    (fused.1.getD i []).length = (fused.2.1.getD i []).length ∧
    (newEmbeds.getD i []).length = (newLabels.getD i []).length ∧
    (i < newEmbeds.length →
      (padded.1.getD i []).length = max_len ∧
      (padded.2.1.getD i []).length = max_len) := by
  subst hfused
  subst hne
  subst hnl
  subst hpad
  subst hml
  have base := fuseBatch_length_eq embedF image_features _ 0
    (depad_zip_length input_ids labels0 attn h1 h2) i
  have htr : ((truncBatch cap (fuseBatch embedF image_features
        ((depadBatch input_ids attn).zip (depadBatch labels0 attn)) 0).1).getD i []).length =
      ((truncBatch cap (fuseBatch embedF image_features
        ((depadBatch input_ids attn).zip (depadBatch labels0 attn)) 0).2.1).getD i []).length := by
    rw [truncBatch_getD, truncBatch_getD]
    cases cap with
    | none => exact base
    | some n => simp only [List.length_take, base]
  refine ⟨base, htr, fun hi => ?_⟩
  have hlens := fuseBatch_lengths embedF image_features
    ((depadBatch input_ids attn).zip (depadBatch labels0 attn)) 0
  have hi2 : i < (truncBatch cap (fuseBatch embedF image_features
      ((depadBatch input_ids attn).zip (depadBatch labels0 attn)) 0).2.1).length := by
    rw [truncBatch_length] at hi ⊢
    omega
  obtain ⟨pe, pl, _, _⟩ := padBatch_getD side zeroE _ _ i hi hi2
  have hmem : (truncBatch cap (fuseBatch embedF image_features
      ((depadBatch input_ids attn).zip (depadBatch labels0 attn)) 0).1).getD i [] ∈
      truncBatch cap (fuseBatch embedF image_features
      ((depadBatch input_ids attn).zip (depadBatch labels0 attn)) 0).1 := by
    rw [List.getD_eq_getElem _ _ hi]
    exact List.getElem_mem _
  have hle := mem_le_foldl_max _ 0 _ (List.mem_map_of_mem List.length hmem)
  rw [pe, pl]
  by_cases hs : (side == "left") = true
  · rw [padRow_left_fields _ hs _ _ _ _ htr.symm]
    refine ⟨?_, ?_⟩ <;>
      · simp only [List.length_append, List.length_replicate]
        omega
  · rw [padRow_right_fields _ (by simpa using hs) _ _ _ _ htr.symm]
    refine ⟨?_, ?_⟩ <;>
      · simp only [List.length_append, List.length_replicate]
        omega

/-- C1 witness: a concrete one-sample fusion (one sentinel, one
two-patch image block) has fused embedding and label lengths 3 = 3, and
its right-padded row has length `max_len = 3`. -/
theorem C1_witness :
    ((fuseBatch (fun t => t) [[100, 101]]
        ((depadBatch [[5, -200]] [[true, true]]).zip
          (depadBatch [[7, 8]] [[true, true]])) 0).1.getD 0 []).length =
      ((fuseBatch (fun t => t) [[100, 101]]
        ((depadBatch [[5, -200]] [[true, true]]).zip
          (depadBatch [[7, 8]] [[true, true]])) 0).2.1.getD 0 []).length ∧
    ((padBatch "right" (0 : Int)
        (truncBatch none (fuseBatch (fun t => t) [[100, 101]]
          ((depadBatch [[5, -200]] [[true, true]]).zip
            (depadBatch [[7, 8]] [[true, true]])) 0).1)
        (truncBatch none (fuseBatch (fun t => t) [[100, 101]]
          ((depadBatch [[5, -200]] [[true, true]]).zip
            (depadBatch [[7, 8]] [[true, true]])) 0).2.1)).1.getD 0 []).length = 3 :=
  ⟨(C1_length_invariant (fun t => t) 0 [[100, 101]] "right" none [[5, -200]] [[7, 8]]
      [[true, true]] 0 _ _ _ _ 3 rfl rfl rfl rfl (by decide) (by decide) (by decide)).1,
   ((C1_length_invariant (fun t => t) 0 [[100, 101]] "right" none [[5, -200]] [[7, 8]]
      [[true, true]] 0 _ _ _ _ 3 rfl rfl rfl rfl (by decide) (by decide) (by decide)).2.2
      (by decide)).1⟩

/-- C2: after padding, under right padding the first `cur_len` positions
of each padded row equal the unpadded fused sample (embeddings and
labels) with an all-true mask span, and the remaining positions hold
the zero embedding row, the ignore label, and a false mask entry; under
left padding the same holds for the last `cur_len` positions. -/
theorem C2_padding_correctness {E : Type} (side : String) (zeroE : E)
    (embeds : List (List E)) (labels : List (List Int)) (i : Nat)
    (max_len : Nat) (e : List E) (l : List Int) (cur_len : Nat)
    (hml : max_len = (embeds.map List.length).foldl max 0)
    (he : e = embeds.getD i []) (hl : l = labels.getD i [])
    (hcl : cur_len = e.length)
    (h1 : i < embeds.length) (h2 : i < labels.length)
    (h3 : l.length = e.length) :
    ((side = "right") →
      ((padBatch side zeroE embeds labels).1.getD i []).take cur_len = e ∧
      ((padBatch side zeroE embeds labels).1.getD i []).drop cur_len =
        List.replicate (max_len - cur_len) zeroE ∧
      ((padBatch side zeroE embeds labels).2.1.getD i []).take cur_len = l ∧
      ((padBatch side zeroE embeds labels).2.1.getD i []).drop cur_len =
        List.replicate (max_len - cur_len) IGNORE_INDEX ∧
      ((padBatch side zeroE embeds labels).2.2.1.getD i []).take cur_len =
        List.replicate cur_len true ∧
      ((padBatch side zeroE embeds labels).2.2.1.getD i []).drop cur_len =
        List.replicate (max_len - cur_len) false) ∧
    ((side = "left") →
      ((padBatch side zeroE embeds labels).1.getD i []).drop (max_len - cur_len) = e ∧
      ((padBatch side zeroE embeds labels).1.getD i []).take (max_len - cur_len) =
        List.replicate (max_len - cur_len) zeroE ∧
      ((padBatch side zeroE embeds labels).2.1.getD i []).drop (max_len - cur_len) = l ∧
      ((padBatch side zeroE embeds labels).2.1.getD i []).take (max_len - cur_len) =
        List.replicate (max_len - cur_len) IGNORE_INDEX ∧
      ((padBatch side zeroE embeds labels).2.2.1.getD i []).drop (max_len - cur_len) =
        List.replicate cur_len true ∧
      ((padBatch side zeroE embeds labels).2.2.1.getD i []).take (max_len - cur_len) =
        List.replicate (max_len - cur_len) false) := by
  obtain ⟨pe, pl, pm, _⟩ := padBatch_getD side zeroE embeds labels i h1 h2
  subst hml
  subst he
  subst hl
  subst hcl
  constructor
  · intro hs
    subst hs
    rw [pe, pl, pm, padRow_right_fields _ (by decide) _ _ _ _ h3]
    refine ⟨List.take_left _ _, List.drop_left _ _, List.take_left' h3, ?_,
      List.take_left' (by simp), List.drop_left' (by simp)⟩
    rw [List.drop_left' h3, h3]
  · intro hs
    subst hs
    rw [pe, pl, pm, padRow_left_fields _ (by decide) _ _ _ _ h3]
    refine ⟨List.drop_left' (by simp), List.take_left' (by simp),
      List.drop_left' (by simp only [List.length_replicate]; rw [h3]), ?_,
      List.drop_left' (by simp), List.take_left' (by simp)⟩
    rw [List.take_left' (by simp only [List.length_replicate]; rw [h3]), h3]

/-- C2 witness: in a concrete right-padded batch with rows of fused
lengths 2 and 1 (`max_len = 2`), sample 1's padded row starts with the
unpadded sample and its padding span holds a false mask entry. -/
theorem C2_witness :
    ((padBatch "right" (0 : Int) [[10, 20], [30]] [[7, 8], [9]]).1.getD 1 []).take 1 =
      [30] ∧
    ((padBatch "right" (0 : Int) [[10, 20], [30]] [[7, 8], [9]]).2.1.getD 1 []).take 1 =
      [9] ∧
    ((padBatch "right" (0 : Int) [[10, 20], [30]] [[7, 8], [9]]).2.2.1.getD 1 []).drop 1 =
      List.replicate (2 - 1) false :=
  ⟨((C2_padding_correctness "right" 0 [[10, 20], [30]] [[7, 8], [9]] 1 2 [30] [9] 1
      (by decide) (by decide) (by decide) (by decide) (by decide) (by decide)
      (by decide)).1 rfl).1,
   ((C2_padding_correctness "right" 0 [[10, 20], [30]] [[7, 8], [9]] 1 2 [30] [9] 1
      (by decide) (by decide) (by decide) (by decide) (by decide) (by decide)
      (by decide)).1 rfl).2.2.1,
   ((C2_padding_correctness "right" 0 [[10, 20], [30]] [[7, 8], [9]] 1 2 [30] [9] 1
      (by decide) (by decide) (by decide) (by decide) (by decide) (by decide)
      (by decide)).1 rfl).2.2.2.2.2⟩

/-- C3: in the padded output, the position ids over a sample's
non-padded span form the contiguous sequence `0, 1, ..., cur_len - 1`
(`arange(0, cur_len)`), for right padding (span at the front) and left
padding (span at the back) alike. -/
theorem C3_position_id_restart {E : Type} (side : String) (zeroE : E)
    (embeds : List (List E)) (labels : List (List Int)) (i : Nat)
    (max_len : Nat) (cur_len : Nat)
    (hml : max_len = (embeds.map List.length).foldl max 0)
    (hcl : cur_len = (embeds.getD i []).length)
    (h1 : i < embeds.length) (h2 : i < labels.length)
    (h3 : (labels.getD i []).length = (embeds.getD i []).length) :
    ((side = "right") →
      ((padBatch side zeroE embeds labels).2.2.2.getD i []).take cur_len =
        intArange cur_len) ∧
    ((side = "left") →
      ((padBatch side zeroE embeds labels).2.2.2.getD i []).drop (max_len - cur_len) =
        intArange cur_len) := by
  obtain ⟨_, _, _, pp⟩ := padBatch_getD side zeroE embeds labels i h1 h2
  subst hml
  subst hcl
  constructor
  · intro hs
    subst hs
    rw [pp, padRow_right_fields _ (by decide) _ _ _ _ h3]
    exact List.take_left' (by simp [intArange])
  · intro hs
    subst hs
    rw [pp, padRow_left_fields _ (by decide) _ _ _ _ h3]
    exact List.drop_left' (by simp)

/-- C3 witness: in the concrete batch of C2's witness, padded sample 1
(fused length 1) has position ids `arange(0, 1)` on its non-padded
span. -/
theorem C3_witness :
    ((padBatch "right" (0 : Int) [[10, 20], [30]] [[7, 8], [9]]).2.2.2.getD 1 []).take 1 =
      intArange 1 :=
  (C3_position_id_restart "right" 0 [[10, 20], [30]] [[7, 8], [9]] 1 2 1
      (by decide) (by decide) (by decide) (by decide) (by decide)).1 rfl

/-- C4 (counterexample): the claim "the number of image blocks consumed
while fusing a sample equals the number of sentinel tokens in that
sample's depadded token sequence" fails at the concrete depadded sample
`[5, 6]` (no sentinel token): fusing it advances the shared image-block
cursor from 0 to 1, consuming one block, while the sentinel count is 0. -/
theorem C4_counterexample :
    ¬ ((fuseSample (fun t => t) ([[7, 8]] : List (List Int)) 0 [5, 6] [5, 6]).2.2 - 0 =
        ([5, 6] : List Int).countP (fun t => t == IMAGE_TOKEN_INDEX)) := by
  decide

/-- C4 (amended): for every sample containing at least one sentinel
token, the number of image blocks consumed from the shared flat
image-block list while fusing that sample equals the number of sentinel
tokens in its depadded token sequence; a sample with zero sentinel
tokens nevertheless consumes exactly one image block (the source's
round-robin draw that keeps the shared cursor aligned across the
batch). -/
theorem C4_amended {E : Type} (embedF : Int → E) (feats : List (List E))
    (c : Nat) (ids labs : List Int) :
    (fuseSample embedF feats c ids labs).2.2 =
      c + (if ids.countP (fun t => t == IMAGE_TOKEN_INDEX) = 0 then 1
           else ids.countP (fun t => t == IMAGE_TOKEN_INDEX)) := by
  unfold fuseSample
  by_cases h0 : ids.countP (fun t => t == IMAGE_TOKEN_INDEX) = 0
  · simp [h0]
  · simp only [Nat.beq_eq_true_eq, if_neg h0]
    rw [spliceLoop_cursor]
    have hn := whereEq_length ids IMAGE_TOKEN_INDEX
    rw [List.length_zip, splitBySizes_length, List.length_map, segSlices_length]
    simp only [List.length_cons, List.length_append, List.length_map,
      List.length_singleton, List.length_nil]
    omega

/-- C5: if fusion is called with no vision encoder, or no images, or
with every sample's raw token length equal to 1, it returns the
original token ids, position ids, attention mask, past key values and
labels unchanged, with the embeddings slot left unset (`None`). -/
theorem C5_short_circuit_passthrough {E Img PKV : Type}
    (cfg : FusionConfig) (hasVisionTower : Bool) (encodeImages : Img → List (List E))
    (embedF : Int → E) (zeroE : E) (input_ids : List (List Int))
    (position_ids : Option (List (List Int))) (attention_mask : Option (List (List Bool)))
    (past_key_values : PKV) (labels : Option (List (List Int))) (images : Option Img)
    (h : hasVisionTower = false ∨ images = none ∨
        (input_ids ≠ [] ∧ ∀ r ∈ input_ids, r.length = 1)) :
    prepare_inputs_labels_for_multimodal cfg hasVisionTower encodeImages embedF zeroE
        input_ids position_ids attention_mask past_key_values labels images =
      ⟨some input_ids, position_ids, attention_mask, past_key_values, none, labels⟩ := by
  cases images with
  | none => rfl
  | some imgs =>
    rcases h with h | h | ⟨hne, hall⟩
    · subst h
      simp only [prepare_inputs_labels_for_multimodal, Bool.not_false, Bool.true_or]
      rfl
    · simp at h
    · have hhead : (input_ids.headD []).length = 1 := by
        cases input_ids with
        | nil => exact absurd rfl hne
        | cons r rs => exact hall r (List.mem_cons_self r rs)
      have hc : ((input_ids.headD []).length == 1) = true := by
        rw [hhead]
        rfl
      simp only [prepare_inputs_labels_for_multimodal, hc, Bool.or_true]
      rfl

/-- C5 witness: a concrete batch of two single-token samples with
images supplied passes through unchanged. -/
theorem C5_witness :
    prepare_inputs_labels_for_multimodal
        ⟨none, "right"⟩ true ((fun x => x) : List (List Int) → List (List Int))
        ((fun t => t) : Int → Int) 0 [[5], [9]] none none () none
        (some [[3, 4]]) =
      ⟨some [[5], [9]], none, none, (), none, none⟩ :=
  C5_short_circuit_passthrough _ _ _ _ _ _ _ _ _ _ _
    (Or.inr (Or.inr ⟨by decide, by decide⟩))

/-- C6: whichever of the attention mask, the labels and the position
ids the caller omits (`None`), the corresponding output of fusion is
also `None`, on both the short-circuit and the fusion path, even though
internal defaults are constructed and used during fusion. -/
theorem C6_absence_propagation {E Img PKV : Type}
    (cfg : FusionConfig) (hasVisionTower : Bool) (encodeImages : Img → List (List E))
    (embedF : Int → E) (zeroE : E) (input_ids : List (List Int))
    (position_ids : Option (List (List Int))) (attention_mask : Option (List (List Bool)))
    (past_key_values : PKV) (labels : Option (List (List Int))) (images : Option Img) :
    (labels = none →
      (prepare_inputs_labels_for_multimodal cfg hasVisionTower encodeImages embedF zeroE
        input_ids position_ids attention_mask past_key_values labels images).labels = none) ∧
    (attention_mask = none →
      (prepare_inputs_labels_for_multimodal cfg hasVisionTower encodeImages embedF zeroE
        input_ids position_ids attention_mask past_key_values labels images).attention_mask
        = none) ∧
    (position_ids = none →
      (prepare_inputs_labels_for_multimodal cfg hasVisionTower encodeImages embedF zeroE
        input_ids position_ids attention_mask past_key_values labels images).position_ids
        = none) := by
  refine ⟨fun hl => ?_, fun hm => ?_, fun hp => ?_⟩
  · subst hl
    cases images with
    | none => rfl
    | some imgs =>
      simp only [prepare_inputs_labels_for_multimodal]
      split <;> rfl
  · subst hm
    cases images with
    | none => rfl
    | some imgs =>
      simp only [prepare_inputs_labels_for_multimodal]
      split <;> rfl
  · subst hp
    cases images with
    | none => rfl
    | some imgs =>
      simp only [prepare_inputs_labels_for_multimodal]
      split <;> rfl

/-- C6 witness: on a concrete fusion-path call with mask, labels and
position ids all omitted, all three outputs are `None`. -/
theorem C6_witness :
    (prepare_inputs_labels_for_multimodal
        ⟨none, "right"⟩ true ((fun x => x) : List (List Int) → List (List Int))
        ((fun t => t) : Int → Int) 0 [[5, -200]] none none () none
        (some [[3, 4]])).labels = none ∧
    (prepare_inputs_labels_for_multimodal
        ⟨none, "right"⟩ true ((fun x => x) : List (List Int) → List (List Int))
        ((fun t => t) : Int → Int) 0 [[5, -200]] none none () none
        (some [[3, 4]])).attention_mask = none ∧
    (prepare_inputs_labels_for_multimodal
        ⟨none, "right"⟩ true ((fun x => x) : List (List Int) → List (List Int))
        ((fun t => t) : Int → Int) 0 [[5, -200]] none none () none
        (some [[3, 4]])).position_ids = none :=
  ⟨(C6_absence_propagation _ _ _ _ _ _ _ _ _ _ _).1 rfl,
   (C6_absence_propagation _ _ _ _ _ _ _ _ _ _ _).2.1 rfl,
   (C6_absence_propagation _ _ _ _ _ _ _ _ _ _ _).2.2 rfl⟩

/-- C10: when the fusion path actually runs (vision encoder present,
images supplied, raw token length greater than 1), the token-id slot of
the returned tuple is `None` while the embeddings slot is filled. -/
theorem C10_fusion_returns_no_token_ids {E Img PKV : Type}
    (cfg : FusionConfig) (encodeImages : Img → List (List E))
    (embedF : Int → E) (zeroE : E) (input_ids : List (List Int))
    (position_ids : Option (List (List Int))) (attention_mask : Option (List (List Bool)))
    (past_key_values : PKV) (labels : Option (List (List Int))) (imgs : Img)
    (h1 : 1 < (input_ids.headD []).length) :
    (prepare_inputs_labels_for_multimodal cfg true encodeImages embedF zeroE input_ids
        position_ids attention_mask past_key_values labels (some imgs)).input_ids = none ∧
    (prepare_inputs_labels_for_multimodal cfg true encodeImages embedF zeroE input_ids
        position_ids attention_mask past_key_values labels
        (some imgs)).inputs_embeds.isSome = true := by
  have hp : ¬ (((input_ids.headD []).length == 1) = true) := by
    simp only [beq_iff_eq]
    omega
  constructor <;>
    · simp only [prepare_inputs_labels_for_multimodal, Bool.not_true, Bool.false_or]
      rw [if_neg hp]
      try rfl

/-- C10 witness: a concrete two-token call with images returns no token
ids and some embeddings. -/
theorem C10_witness :
    (prepare_inputs_labels_for_multimodal
        ⟨none, "right"⟩ true ((fun x => x) : List (List Int) → List (List Int))
        ((fun t => t) : Int → Int) 0 [[5, 6]] none none () none
        (some [[3, 4]])).input_ids = none ∧
    (prepare_inputs_labels_for_multimodal
        ⟨none, "right"⟩ true ((fun x => x) : List (List Int) → List (List Int))
        ((fun t => t) : Int → Int) 0 [[5, 6]] none none () none
        (some [[3, 4]])).inputs_embeds.isSome = true :=
  C10_fusion_returns_no_token_ids _ _ _ _ _ _ _ _ _ _ (by decide)

/-- C7: the merged weight map assembled from an index manifest contains
exactly the entries `(tn, v)` such that the manifest assigns `tn` to a
shard file that exists on disk, whose loaded contents hold `tn` with
value `v`.  In particular a manifest-listed shard file absent on disk
contributes nothing (its tensors stay unresolved), a tensor name missing
from its opened shard contributes nothing, and the merge itself is a
total function — it never fails. -/
theorem C7_shard_merge_resolution {V : Type} (weight_map : List (String × String))
    (disk : String → Option (List (String × V))) (tn : String) (v : V) :
    (tn, v) ∈ mergeShards weight_map disk ↔
      ∃ fn part, (tn, fn) ∈ weight_map ∧ disk fn = some part ∧
        lookupT part tn = some v := by
  unfold mergeShards
  rw [List.mem_flatMap]
  constructor
  · rintro ⟨⟨gf, gts⟩, hg, hmem⟩
    rcases (shardStep_mem disk (gf, gts) tn v).mp hmem with ⟨part, hd, htn, hv⟩
    exact ⟨gf, part, filesToLoad_sound weight_map gf gts hg tn htn, hd, hv⟩
  · rintro ⟨fn, part, hwm, hd, hv⟩
    obtain ⟨ts, hts, htn⟩ := filesToLoad_complete weight_map tn fn hwm
    exact ⟨(fn, ts), hts, (shardStep_mem disk (fn, ts) tn v).mpr ⟨part, hd, htn, hv⟩⟩

/-- C8: at a checkpoint path that is neither a `.safetensors` file nor
a directory containing `model.safetensors` or
`model.safetensors.index.json`, `from_pretrained` does NOT reach the
per-component fallback branch: the local `full_state_dict` is never
assigned on that path, so the test `if full_state_dict is not None`
raises `UnboundLocalError` (the fallback branch of line 509 is
unreachable).  Evaluated here at a directory containing neither file. -/
theorem C8_missing_checkpoint_crashes :
    from_pretrained_load
        ((⟨fun _ => false, fun p => p == "ckpt", fun _ => [], fun _ => none⟩ : CkptFS Int))
        "ckpt" = FromPretrainedResult.unboundLocalError ∧
    from_pretrained_load
        ((⟨fun _ => false, fun p => p == "ckpt", fun _ => [], fun _ => none⟩ : CkptFS Int))
        "ckpt" ≠ FromPretrainedResult.fallbackPerComponent := by
  refine ⟨by decide, by decide⟩

/-- C9 (counterexample): the claim "the vision encoder is loaded
strictly by default and, if the strict load raises, falls back to a
permissive load" fails: with a load behavior whose strict application
raises and whose permissive application succeeds, `load_vision_tower`
propagates the error instead of succeeding via a permissive retry; and
the connector, claimed to be loaded permissively, in fact performs a
strict application first (trace `[true, false]`). -/
theorem C9_counterexample :
    (load_vision_tower_fsd [("vision_tower.w", (0 : Int))]
        (fun _ strict => if strict then some (0 : Int) else none)).2 = some 0 ∧
    (load_connector_fsd [("connector.w", (0 : Int))]
        (fun _ strict => if strict then some (0 : Int) else none)).1 = [true, false] :=
  ⟨rfl, rfl⟩

/-- C9 (amended): when routing a merged weight map to the three
components, the decoder is loaded with a single permissive
(`strict=False`) application whose error, if any, propagates; the
vision encoder is loaded with a single strict (`strict=True`)
application and a strict-load failure is re-raised with no permissive
fallback; the connector is loaded strictly by default and falls back to
one permissive application if the strict one raises, logging the
fallback. -/
theorem C9_amended {V Err : Type} (full_state_dict : List (String × V))
    (apply : List (String × V) → Bool → Option Err) :
    load_llm_fsd full_state_dict apply =
      ([false], apply (llmSubState full_state_dict) false) ∧
    load_vision_tower_fsd full_state_dict apply =
      ([true], apply (visionTowerSubState full_state_dict) true) ∧
    load_connector_fsd full_state_dict apply =
      (match apply (connectorSubState full_state_dict) true with
       | none => ([true], none)
       | some _ => ([true, false], apply (connectorSubState full_state_dict) false)) := by
  refine ⟨?_, ?_, ?_⟩
  · simp only [load_llm_fsd]
    cases apply (llmSubState full_state_dict) false <;> rfl
  · simp only [load_vision_tower_fsd]
    cases apply (visionTowerSubState full_state_dict) true <;> rfl
  · simp only [load_connector_fsd]
    cases apply (connectorSubState full_state_dict) true with
    | none => rfl
    | some e => cases apply (connectorSubState full_state_dict) false <;> rfl

end TinyLlava
